import Mathlib

/-! Verification of the lazy column-transformation engine of a SQL-pushdown
dataframe library. The Python source is embedded shallowly: transformation
chains, chain alignment, the three normalization methods, missing-value
filling, the optimal histogram bin width, name grouping and top-k
discretization become pure Lean functions over explicit oracle inputs
(results of SQL round trips are passed in as parameters). -/

/-- One entry of a column's transformation chain: an SQL template with a
single `{}` placeholder, the resulting DB type and the semantic category.
Mirrors the `(template, type, category)` tuples stored in
`vColumn.transformations` (old layout) / `vDataColumn._transf` (new layout). -/
structure TransStep where
  template : String
  ctype : String
  category : String
deriving DecidableEq

/-- The statistics catalog of one column: a mapping from aggregation name to
cached numeric value, with Python-dict semantics (insertion order kept,
updating an existing key keeps its position). -/
abbrev Catalog := List (String × ℚ)

/-- Dictionary lookup, `catalog[k]` / `k in catalog`: the value of the first
(and, for a dict, only) entry carrying the key. -/
def catGet : Catalog → String → Option ℚ
  | [], _ => none
  | kv :: rest, k => if kv.1 == k then some kv.2 else catGet rest k

/-- Dictionary assignment `catalog[k] = v`: overwrite in place when the key
exists, append otherwise (Python dict insertion-order semantics). -/
def catSet (c : Catalog) (k : String) (v : ℚ) : Catalog :=
  if c.any (fun kv => kv.1 == k) then
    c.map (fun kv => if kv.1 == k then (k, v) else kv)
  else c ++ [(k, v)]

/-- A virtual column: alias, transformation chain and statistics catalog
(`vColumn` in the old layout, `vDataColumn` in the new one). The parent
table is not stored; operations that read it take oracle parameters. -/
structure VCol where
  _alias : String
  transf : List TransStep
  catalog : Catalog
deriving DecidableEq

/-- The last chain entry; the chain of a live column is never empty, the
default only makes the function total. -/
def VCol.lastStep (c : VCol) : TransStep :=
  c.transf.getLastD ⟨"{}", "undefined", "undefined"⟩

/-- Python's `str.lower()`, character by character. -/
def strToLower (s : String) : String := ⟨s.data.map Char.toLower⟩

/-- `vColumn.ctype`: `self.transformations[-1][1].lower()`. -/
def VCol.ctype (c : VCol) : String := strToLower c.lastStep.ctype

/-- `vColumn.category`: `self.transformations[-1][2]`. -/
def VCol.category (c : VCol) : String := c.lastStep.category

/-- `vColumn.isnum`: `self.category() in ("float", "int")`. -/
def VCol.isnum (c : VCol) : Bool :=
  c.category == "float" || c.category == "int"

/-- Boolean test on a column. The old source compares `self.ctype()` with
`"boolean"`; the new-layout `isbool` helper is not among the repository
files, so the `"bool"` spelling is admitted as well. -/
def VCol.isbool (c : VCol) : Bool :=
  c.ctype == "bool" || c.ctype == "boolean"

/-- Python's `in` on strings: substring containment. An empty needle is
contained in every string, as in Python. -/
def pyContains (hay needle : String) : Bool :=
  hay.data.tails.any (fun t => needle.data.isPrefixOf t)

/-- The `max_floor` computation shared by `normalize` and `fillna`:
`for elem in deps: if len(parent[elem].transformations) > max_floor: ...`,
starting from 0. -/
def chainMaxFloor (depLens : List ℕ) : ℕ :=
  depLens.foldl (fun acc l => if acc < l then l else acc) 0

/-- Chain alignment: pad this column's chain with identity steps
`("{}", self.ctype(), self.category())` until it is as long as the longest
dependency chain (`max_floor -= len(transformations); for k in
range(max_floor): transformations += [("{}", ctype, category)]`; a
non-positive count pads nothing). -/
def alignPad (c : VCol) (depLens : List ℕ) : List TransStep :=
  c.transf ++
    List.replicate (chainMaxFloor depLens - c.transf.length)
      ⟨"{}", c.ctype, c.category⟩

/-- The three normalization methods (the `method` literal of `normalize`). -/
inductive NormMethod where
  | zscore
  | robust_zscore
  | minmax
deriving DecidableEq

/-- Rendering of a numeric value into generated SQL text (Python's string
interpolation of the fetched statistic). -/
def ratStr (q : ℚ) : String := toString q

/-- The consistency constant `1.4826` of `robust_zscore`, exactly. -/
def madConst : ℚ := 14826 / 10000

/-- Oracle inputs of `vDataColumn.normalize`: results of the aggregate
queries, the partition-column cardinality, the parent row count and the
parent columns' chain lengths.  Each field stands for one SQL round trip or
parent lookup made by the source. -/
structure NormEnv where
  aggAvg : ℚ
  aggStd : ℚ
  aggMad : ℚ
  aggMedian : ℚ
  aggMin : ℚ
  aggMax : ℚ
  nunique : ℕ
  rowCount : ℚ
  parentLen : String → ℕ

/-- What `normalize` hands back: the parent table (possibly after a commit),
the column itself (the guard paths' `return self`), the transformation
string (`return_trans=True`), or a raised `TypeError`. -/
inductive NormRet where
  | parentTable (col : VCol)
  | selfColumn (col : VCol)
  | transString (s : String)
  | typeError
deriving DecidableEq

/-- Result of one `normalize` call: the returned object, whether a warning
was emitted, and whether the grouped (`GROUP BY` / `DECODE`) strategy was
attempted before any fallback. -/
structure NormResult where
  ret : NormRet
  warned : Bool
  groupedAttempted : Bool
deriving DecidableEq

/-- The carried-over part of the catalog rewrite shared by the
chain-extending operations: `count` survives verbatim and `percent` is
recomputed as `100 * count / shape()[0]` (a zero row count raises inside the
`try`, leaving only `count` set). -/
def carryCountPercent (sauv : Catalog) (rowCount : ℚ) : Catalog × Bool :=
  match catGet sauv "count" with
  | some cnt =>
      if rowCount == 0 then ([("count", cnt)], false)
      else ([("count", cnt), ("percent", 100 * cnt / rowCount)], true)
  | none => ([], true)

/-- Rescaling of one cached `top...` value with the formula just applied.
`none` models the `try` block dying there (a missing statistic key raises
`KeyError`, a zero divisor raises `ZeroDivisionError`). -/
def topRescale (method : NormMethod) (sauv : Catalog) (v : ℚ) : Option ℚ :=
  match method with
  | .robust_zscore => do
      let med ← catGet sauv "approx_50%"
      let mad ← catGet sauv "mad"
      if madConst * mad == 0 then none else some ((v - med) / (madConst * mad))
  | .zscore => do
      let mean ← catGet sauv "mean"
      let std ← catGet sauv "std"
      if std == 0 then none else some ((v - mean) / std)
  | .minmax => do
      let mn ← catGet sauv "min"
      let mx ← catGet sauv "max"
      if mx - mn == 0 then none else some ((v - mn) / (mx - mn))

/-- The `for elem in sauv` loop of the catalog rewrite: keys containing
`top` are carried (when they also contain `percent`) or rescaled; a raise
aborts the remaining iterations (`except: pass`). -/
def topLoop (method : NormMethod) (sauv : Catalog) :
    Catalog → List (String × ℚ) → Catalog
  | cat, [] => cat
  | cat, (k, v) :: rest =>
      if pyContains k "top" then
        if pyContains k "percent" then topLoop method sauv (catSet cat k v) rest
        else
          match topRescale method sauv v with
          | some w => topLoop method sauv (catSet cat k w) rest
          | none => cat
      else topLoop method sauv cat rest

/-- The catalog rewrite performed after a successful normalization: the old
catalog is saved (`sauv`), the column's catalog erased, `count`/`percent`
carried, cached `top` values rescaled, and the method's own statistics reset
to their canonical post-normalization values (outside the `try`). -/
def rewriteAfterNorm (sauv : Catalog) (rowCount : ℚ) (method : NormMethod) :
    Catalog :=
  let (cat0, ok) := carryCountPercent sauv rowCount
  let cat1 := if ok then topLoop method sauv cat0 sauv else cat0
  match method with
  | .robust_zscore => catSet (catSet cat1 "median" 0) "mad" (1 / madConst)
  | .zscore => catSet (catSet cat1 "mean" 0) "std" 1
  | .minmax => catSet (catSet cat1 "min" 0) "max" 1

/-- The committed part of `normalize`: chain alignment over the `by` columns
(skipped for `robust_zscore`), append of the final transformation, and the
catalog rewrite.  The erasure `_update_catalog(erase=True, columns=[alias])`
is not among the repository's files; modelled from the spec as clearing this
column's cached entries before the rewrite refills them. -/
def normCommit (env : NormEnv) (c : VCol) (method : NormMethod)
    (by_ : List String) (step : TransStep) : VCol :=
  let transf1 :=
    if method == NormMethod.robust_zscore then c.transf
    else alignPad c (by_.map env.parentLen)
  { _alias := c._alias,
    transf := transf1 ++ [step],
    catalog := rewriteAfterNorm c.catalog env.rowCount method }

/-- Shallow embedding of `vDCNorm.normalize` (the `vDataColumn` method).
Branches mirror the source: boolean columns warn and fall through to
`return self._parent`; non-numeric columns raise `TypeError`; each method
computes its statistics or windowed expressions, guards against degenerate
statistics (warn + `return self`), then commits.  In the partitioned
branches the grouped `DECODE` construction dereferences an unbound name
right after the fetch, so the `try` always raises and the `except` branch
installs the windowed `OVER (PARTITION BY ...)` expressions; only the
attempt itself (the gate condition) is observable. -/
def dcNormalize (env : NormEnv) (c : VCol) (method : NormMethod)
    (by_ : List String) (returnTrans : Bool) : NormResult :=
  let n := by_.length
  if c.isbool then ⟨.parentTable c, true, false⟩
  else if c.isnum then
    match method with
    | .zscore =>
        if n = 0 then
          if env.aggStd == 0 then ⟨.selfColumn c, true, false⟩
          else
            let avg := ratStr env.aggAvg
            let stddev := ratStr env.aggStd
            let nz := ""
            if returnTrans then
              ⟨.transString
                ("(" ++ c._alias ++ " - " ++ avg ++ ") / " ++ nz ++ "(" ++
                  stddev ++ ")"), false, false⟩
            else
              ⟨.parentTable
                (normCommit env c .zscore by_
                  ⟨"({} - " ++ avg ++ ") / " ++ nz ++ "(" ++ stddev ++ ")",
                    "float", "float"⟩), false, false⟩
        else
          let attempted := n == 1 && env.nunique < 50
          let avg := "AVG(" ++ c._alias ++ ") OVER (PARTITION BY " ++
            String.intercalate ", " by_ ++ ")"
          let stddev := "STDDEV(" ++ c._alias ++ ") OVER (PARTITION BY " ++
            String.intercalate ", " by_ ++ ")"
          let nz := "NULLIFZERO"
          if returnTrans then
            ⟨.transString
              ("(" ++ c._alias ++ " - " ++ avg ++ ") / " ++ nz ++ "(" ++
                stddev ++ ")"), false, attempted⟩
          else
            ⟨.parentTable
              (normCommit env c .zscore by_
                ⟨"({} - " ++ avg ++ ") / " ++ nz ++ "(" ++ stddev ++ ")",
                  "float", "float"⟩), false, attempted⟩
    | .robust_zscore =>
        if 0 < n then ⟨.selfColumn c, true, false⟩
        else
          let mad := env.aggMad * madConst
          let med := ratStr env.aggMedian
          if mad == 0 then ⟨.selfColumn c, true, false⟩
          else if returnTrans then
            ⟨.transString
              ("(" ++ c._alias ++ " - " ++ med ++ ") / (" ++ ratStr mad ++ ")"),
              false, false⟩
          else
            ⟨.parentTable
              (normCommit env c .robust_zscore by_
                ⟨"({} - " ++ med ++ ") / (" ++ ratStr mad ++ ")",
                  "float", "float"⟩), false, false⟩
    | .minmax =>
        if n = 0 then
          if env.aggMax - env.aggMin == 0 then ⟨.selfColumn c, true, false⟩
          else
            let cmin := ratStr env.aggMin
            let cmax := ratStr env.aggMax
            let nz := ""
            if returnTrans then
              ⟨.transString
                ("(" ++ c._alias ++ " - " ++ cmin ++ ") / " ++ nz ++ "(" ++
                  cmax ++ " - " ++ cmin ++ ")"), false, false⟩
            else
              ⟨.parentTable
                (normCommit env c .minmax by_
                  ⟨"({} - " ++ cmin ++ ") / " ++ nz ++ "(" ++ cmax ++ " - " ++
                    cmin ++ ")", "float", "float"⟩), false, false⟩
        else
          let attempted := n == 1
          let cmin := "MIN(" ++ c._alias ++ ") OVER (PARTITION BY " ++
            String.intercalate ", " by_ ++ ")"
          let cmax := "MAX(" ++ c._alias ++ ") OVER (PARTITION BY " ++
            String.intercalate ", " by_ ++ ")"
          let nz := "NULLIFZERO"
          if returnTrans then
            ⟨.transString
              ("(" ++ c._alias ++ " - " ++ cmin ++ ") / " ++ nz ++ "(" ++
                cmax ++ " - " ++ cmin ++ ")"), false, attempted⟩
          else
            ⟨.parentTable
              (normCommit env c .minmax by_
                ⟨"({} - " ++ cmin ++ ") / " ++ nz ++ "(" ++ cmax ++ " - " ++
                  cmin ++ ")", "float", "float"⟩), false, attempted⟩
  else ⟨.typeError, false, false⟩

/-- Python's `str.replace(w, r)`: replace every non-overlapping occurrence of
`w`, scanning left to right.  For the empty pattern this returns the list
unchanged, which agrees with Python at the two call sites (the sources only
replace with the empty pattern when the replacement is itself empty). -/
def pyReplaceAux (w r : List Char) : ℕ → List Char → List Char
  | _, [] => []
  | 0, l => l
  | fuel + 1, c :: rest =>
      if !w.isEmpty && w.isPrefixOf (c :: rest) then
        r ++ pyReplaceAux w r fuel ((c :: rest).drop w.length)
      else c :: pyReplaceAux w r fuel rest

/-- `s.replace(w, r)` on strings.  The fuel is the input length: every step
consumes at least one character, so it never runs out. -/
def pyReplace (s w r : String) : String :=
  ⟨pyReplaceAux w.data r.data s.data.length s.data⟩

/-- A Python scalar as it reaches string interpolation: a string, an int or
a float (floats modelled as exact rationals). -/
inductive PyScalar where
  | s (v : String)
  | i (v : ℤ)
  | f (v : ℚ)
deriving DecidableEq

/-- `str(val)`. -/
def PyScalar.str : PyScalar → String
  | .s v => v
  | .i v => toString v
  | .f v => ratStr v

/-- `isinstance(val, float)`. -/
def PyScalar.isFloat : PyScalar → Bool
  | .f _ => true
  | _ => false

/-- Python's `int()` on a float: truncation towards zero. -/
def pyInt (q : ℚ) : ℤ := if 0 ≤ q then ⌊q⌋ else ⌈q⌉

/-- Modelled from the spec: `str_column` (identifier quoting, not among the
repository's files) — "identifiers are always rendered in quoted form". -/
def str_column (s : String) : String := "\"" ++ s ++ "\""

/-- The `method` literal of `fillna` (`0ifnull` spelled `zeroifnull`). -/
inductive FillMethod where
  | auto
  | mode
  | zeroifnull
  | mean
  | avg
  | median
  | ffill
  | pad
  | bfill
  | backfill
deriving DecidableEq

/-- Oracle inputs of `vColumn.fillna`: the aggregates it may query, the
grouped-query fetch result, the non-null counts before and after the
speculative chain step, the parent row count and the parent chain lengths. -/
structure FillEnv where
  nuniqueSelf : ℕ
  nuniqueBy : ℕ
  modeVal : Option PyScalar
  aggAvg : ℚ
  aggMedian : ℚ
  groupedOk : Bool
  groupRows : List (Option PyScalar × Option ℚ)
  countBefore : ℤ
  countAfter : ℤ
  countOk : Bool
  rowCount : ℚ
  parentLen : String → ℕ

/-- How one `fillna` call ended: a committed fill of `n` values, a rolled
back no-op, the all-null `mode` warning, a raised `ParameterError`, or a
raised `QueryError` (count query failed; chain restored, catalog erased). -/
inductive FillOutcome where
  | filled (n : ℤ)
  | nothingFilled
  | noMode
  | paramError
  | queryError
deriving DecidableEq

/-- Result of `fillna`: the column's final state and the outcome. -/
structure FillResult where
  col : VCol
  outcome : FillOutcome
deriving DecidableEq

/-- The commit-or-rollback tail shared by every `fillna` call once the new
expression is built and the chain speculatively extended (`transf2`): a
failing count query restores the chain and raises `QueryError` (the catalog
stays erased); a positive before/after delta commits the step, bumps the
cached `count` by the delta and recomputes `percent`; a zero delta rolls the
chain back and restores the saved catalog entry by entry. -/
def fillnaCommit (env : FillEnv) (c : VCol) (transf2 : List TransStep) :
    FillResult :=
  if !env.countOk then ⟨⟨c._alias, c.transf, []⟩, .queryError⟩
  else
    let total := |env.countAfter - env.countBefore|
    if 0 < total then
      let cat' :=
        match catGet c.catalog "count" with
        | some cnt =>
            let newCount : ℚ := (pyInt cnt : ℚ) + (total : ℚ)
            if env.rowCount == 0 then catSet [] "count" newCount
            else catSet (catSet [] "count" newCount) "percent"
              (100 * newCount / env.rowCount)
        | none => []
      ⟨⟨c._alias, transf2, cat'⟩, .filled total⟩
    else
      ⟨⟨c._alias, c.transf,
        c.catalog.foldl (fun cc kv => catSet cc kv.1 kv.2) []⟩,
        .nothingFilled⟩

/-- The `mean`/`avg`/`median` strategy of `fillna`: global `COALESCE` with
the queried aggregate when there is no partition; grouped `DECODE` when
there is exactly one partition column of cardinality below 50 and the
grouped query succeeds; windowed `OVER (PARTITION BY ...)` otherwise or on
any failure of the grouped attempt. -/
def fillnaMeanTemplate (env : FillEnv) (method : FillMethod)
    (by_ : List String) : String :=
  let fn := if method == FillMethod.median then "MEDIAN" else "AVG"
  if by_.isEmpty then
    let v : ℚ := if method == FillMethod.median then env.aggMedian else env.aggAvg
    "COALESCE({}, " ++ ratStr v ++ ")"
  else if by_.length == 1 && env.nuniqueBy < 50 && env.groupedOk then
    "COALESCE({}, DECODE(" ++ by_.headD "" ++ ", " ++
      String.intercalate ", "
        (env.groupRows.map (fun kv =>
          (match kv.1 with
           | none => "NULL"
           | some k => "'" ++ pyReplace k.str "'" "''" ++ "'") ++ ", " ++
          (match kv.2 with
           | none => "NULL"
           | some q => ratStr q))) ++ ", NULL))"
  else
    "COALESCE({}, " ++ fn ++ "({}) OVER (PARTITION BY " ++
      String.intercalate ", " by_ ++ "))"

/-- The `ffill`/`pad`/`bfill`/`backfill` template of `fillna`. -/
def fillnaTsTemplate (method : FillMethod) (by_ order_by : List String) :
    String :=
  let desc := if method == FillMethod.ffill || method == FillMethod.pad
    then " DESC" else ""
  let partitionBy :=
    if by_.isEmpty then ""
    else "PARTITION BY " ++ String.intercalate ", " (by_.map str_column)
  let orderByTs :=
    String.intercalate ", " (order_by.map (fun s => str_column s ++ desc))
  "COALESCE({}, LAST_VALUE({} IGNORE NULLS) OVER (" ++ partitionBy ++
    " ORDER BY " ++ orderByTs ++ "))"

/-- Shallow embedding of `vColumn.fillna`.  Mirrors the source: `auto`
resolution, `mode` value lookup with the all-null early return, expression
selection (`val` over `expr` over the named methods), the dependent
category/ctype choice, chain alignment over the partition (and, for the
time-series methods, ordering) columns, the speculative append, and the
commit-or-rollback decision driven by the before/after count delta. -/
def fillna (env : FillEnv) (c : VCol) (val0 : Option PyScalar)
    (method0 : FillMethod) (expr : String) (by_ order_by : List String) :
    FillResult :=
  let method :=
    if method0 == FillMethod.auto then
      if c.isnum && decide (6 < env.nuniqueSelf) then FillMethod.mean
      else FillMethod.mode
    else method0
  if method == FillMethod.mode && val0 == none && env.modeVal == none then
    ⟨c, .noMode⟩
  else
    let val1 := if method == FillMethod.mode && val0 == none
      then env.modeVal else val0
    let val : Option PyScalar := val1.map (fun v =>
      match v with
      | .s t => .s (pyReplace t "'" "''")
      | x => x)
    let newColumnE : Except Unit String :=
      match val with
      | some v => .ok ("COALESCE({}, '" ++ v.str ++ "')")
      | none =>
          if expr != "" then .ok ("COALESCE({}, " ++ expr ++ ")")
          else
            match method with
            | .zeroifnull => .ok "DECODE({}, NULL, 0, 1)"
            | .mean | .avg | .median =>
                .ok (fillnaMeanTemplate env method by_)
            | .ffill | .pad | .bfill | .backfill =>
                if order_by.isEmpty then .error ()
                else .ok (fillnaTsTemplate method by_ order_by)
            | _ => .error ()
    match newColumnE with
    | .error _ => ⟨c, .paramError⟩
    | .ok newColumn =>
        let valIsFloat :=
          (val.map PyScalar.isFloat).getD false ||
            (val == none && expr == "" &&
              (method == FillMethod.mean || method == FillMethod.avg ||
                method == FillMethod.median) && by_.isEmpty)
        let (category, ctype) :=
          if method == FillMethod.mean || method == FillMethod.median ||
              valIsFloat then ("float", "float")
          else if method == FillMethod.zeroifnull then ("int", "bool")
          else (c.category, c.ctype)
        let step : TransStep := ⟨newColumn, ctype, category⟩
        let transf1 :=
          if method == FillMethod.mode || method == FillMethod.zeroifnull then
            c.transf
          else
            let allPartition := by_ ++
              (if method == FillMethod.ffill || method == FillMethod.pad ||
                  method == FillMethod.bfill || method == FillMethod.backfill
                then order_by else [])
            alignPad c (allPartition.map env.parentLen)
        fillnaCommit env c (transf1 ++ [step])

/-- The `method` literal of `numh` (`fd` is the source's accepted alias of
`freedman_diaconis`). -/
inductive NumhMethod where
  | sturges
  | freedman_diaconis
  | fd
  | auto
deriving DecidableEq

/-- Result of `numh`: the returned bar width, and the value written to the
catalog under the key `numh` (only the `auto` branch caches). -/
structure NumhOut where
  value : ℝ
  cachedNumh : Option ℝ

/-- Shallow embedding of `vColumn.numh` after the statistics are fetched:
`count` rows, minimum, the two quartiles and the maximum.  `preComp` is the
catalog's cached `numh` value, returned untouched on an `auto` hit.
Sturges' width is `(max - min) / int(floor(log(count, 2) + 2))`, the
Freedman-Diaconis width `2 * (q3 - q1) / count ** (1/3)`, both floored at
`1e-99`; `auto` takes their maximum and caches it; an `int`-category column
gets `max(floor(best_h), 1)`. -/
noncomputable def numh (preComp : Option ℝ) (count : ℕ)
    (vmin q1 q3 vmax : ℝ) (catIsInt : Bool) (method : NumhMethod) : NumhOut :=
  match method, preComp with
  | .auto, some v => ⟨v, none⟩
  | _, _ =>
      let sturges :=
        max ((vmax - vmin) / (⌊Real.logb 2 count + 2⌋ : ℝ)) (1e-99 : ℝ)
      let fdW :=
        max (2 * (q3 - q1) / (count : ℝ) ^ ((1 : ℝ) / 3)) (1e-99 : ℝ)
      let bestH :=
        match method with
        | .sturges => sturges
        | .freedman_diaconis => fdW
        | .fd => fdW
        | .auto => max sturges fdW
      let cached : Option ℝ :=
        match method with
        | .auto => some bestH
        | _ => none
      let value := if catIsInt then ((max ⌊bestH⌋ 1 : ℤ) : ℝ) else bestH
      ⟨value, cached⟩

/-- The three erase passes of `erase_in_name`, keyed by the `order` list
(`"p"`, `"s"`, `"w"`). -/
inductive EraseKey where
  | p
  | s
  | w
deriving DecidableEq

/-- `erase_prefix_in_name`: drop the first listed prefix that matches
(`p in name and name[:len(p)] == p`), then stop. -/
def erase_prefix_in_name (name : String) : List String → String
  | [] => name
  | p :: ps =>
      if pyContains name p && p.data.isPrefixOf name.data then
        name.drop p.length
      else erase_prefix_in_name name ps

/-- Python's `name[-n:] == s` for `n = len(s)`: for a nonempty `s` this is
the suffix test; for the empty `s` the slice `[-0:]` is the whole string,
so it only matches the empty name. -/
def pySuffixSliceEq (name s : String) : Bool :=
  if s.length == 0 then name == "" else s.data.isSuffixOf name.data

/-- `erase_suffix_in_name`: drop the first listed suffix that matches, then
stop. -/
def erase_suffix_in_name (name : String) : List String → String
  | [] => name
  | s :: ss =>
      if pyContains name s && pySuffixSliceEq name s then
        name.dropRight s.length
      else erase_suffix_in_name name ss

/-- `erase_word_in_name`: on the first listed word contained in the name,
return the name with every occurrence of the word removed. -/
def erase_word_in_name (name : String) : List String → String
  | [] => name
  | w :: ws =>
      if pyContains name w then pyReplace name w ""
      else erase_word_in_name name ws

/-- `erase_in_name`: apply the passes in the requested order. -/
def erase_in_name (name : String) (sufs pres words : List String)
    (order : List EraseKey) : String :=
  order.foldl (fun nm k =>
    match k with
    | .p => erase_prefix_in_name nm pres
    | .s => erase_suffix_in_name nm sufs
    | .w => erase_word_in_name nm words) name

/-- One iteration of the `group_similar_names` loop for an eraser `f`:
append the name to its group when the erased key exists, otherwise create
the group at the end (Python-dict semantics). -/
def groupInsert (f : String → String) (result : List (String × List String))
    (col : String) : List (String × List String) :=
  let groupname := f col
  if result.any (fun kv => kv.1 == groupname) then
    result.map (fun kv =>
      if kv.1 == groupname then (kv.1, kv.2 ++ [col]) else kv)
  else result ++ [(groupname, [col])]

/-- `group_similar_names`: group the column names by their erased form. -/
def group_similar_names (colnames : List String)
    (skipSuf skipPre skipWord : List String) (order : List EraseKey) :
    List (String × List String) :=
  colnames.foldl
    (groupInsert (fun col => erase_in_name col skipSuf skipPre skipWord order))
    []

/-- How one `discretize` call ended: a raised `ParameterError`, the
transformation returned without mutation (`return_enum_trans=True`), or a
committed chain step. -/
inductive DiscOutcome where
  | err
  | trans (t : TransStep)
  | ok
deriving DecidableEq

/-- Result of `discretize`: the column's final state and the outcome. -/
structure DiscResult where
  col : VCol
  outcome : DiscOutcome
deriving DecidableEq

/-- The `topk` collapse expression: keep the top-k categories verbatim,
send every other value to the replacement label.  `csType` stands for
`convert_special_type(self.category(), False)` (a helper not among the
repository's files, passed in as the rendered column placeholder). -/
def discretizeTopkTrans (csType : String) (distinct : List PyScalar)
    (newCategory : String) : TransStep :=
  ⟨"(CASE WHEN " ++ csType ++ " IN (" ++
      String.intercalate ", "
        (distinct.map (fun e => "'" ++ pyReplace e.str "'" "''" ++ "'")) ++
      ") THEN " ++ csType ++ " || '' ELSE '" ++
      pyReplace newCategory "'" "''" ++ "' END)",
    "varchar", "text"⟩

/-- Shallow embedding of `vColumn.discretize` restricted to the `topk`
method: `k < 2` raises `ParameterError` before any mutation; otherwise the
collapse step is built from the top-k categories (`distinct`, the fetched
`self.topk(k)` index) and either returned (`return_enum_trans=True`) or
committed with the count/percent catalog carry-over. -/
def discretize_topk (c : VCol) (k : ℤ) (distinct : List PyScalar)
    (newCategory : String) (csType : String) (returnEnumTrans : Bool)
    (rowCount : ℚ) : DiscResult :=
  if k < 2 then ⟨c, .err⟩
  else
    let trans := discretizeTopkTrans csType distinct newCategory
    if returnEnumTrans then ⟨c, .trans trans⟩
    else
      ⟨⟨c._alias, c.transf ++ [trans],
        (carryCountPercent c.catalog rowCount).1⟩, .ok⟩

/-- Projection of the column state out of a `normalize` return value. -/
def retCol : NormRet → Option VCol
  | .parentTable c => some c
  | .selfColumn c => some c
  | _ => none

/-- Denotation of the committed no-partition minmax expression
`(x - min) / (max - min)` (with no partition the expression carries no
`NULLIFZERO`, and the guard has already excluded `max - min == 0`). -/
def minmaxApply (cmin cmax x : ℚ) : ℚ := (x - cmin) / (cmax - cmin)

/-- A plain numeric float column with an empty catalog. -/
def colFloat : VCol := ⟨"\"x\"", [⟨"\"x\"", "float", "float"⟩], []⟩

/-- A numeric column with cached `count` and (stale) `percent` entries. -/
def colPercent : VCol :=
  ⟨"\"x\"", [⟨"\"x\"", "float", "float"⟩], [("count", 50), ("percent", 37)]⟩

/-- Degenerate statistics: zero standard deviation, `max = min`, zero MAD. -/
def envZero : NormEnv := ⟨0, 0, 0, 0, 0, 0, 0, 100, fun _ => 0⟩

/-- Non-degenerate statistics (`avg = 0`, `std = 1`, `min = 1`, `max = 5`)
over a partition column of cardinality 60 and 100 rows. -/
def envStats : NormEnv := ⟨0, 1, 0, 0, 1, 5, 60, 100, fun _ => 0⟩

/-- A concrete fillna oracle: a committed fill of five values. -/
def fenvA : FillEnv :=
  ⟨10, 3, none, 2, 3, true, [], 90, 95, true, 100, fun _ => 2⟩

/-- A concrete fillna oracle: the before/after counts agree (nothing
filled). -/
def fenvB : FillEnv :=
  ⟨10, 3, none, 2, 3, true, [], 90, 90, true, 100, fun _ => 2⟩

/-! ## Lemmas and claim theorems -/

lemma catGet_map_set_self (c : Catalog) (k : String) (v : ℚ)
    (h : c.any (fun kv => kv.1 == k) = true) :
    catGet (c.map (fun kv => if kv.1 == k then (k, v) else kv)) k = some v := by
  induction c with
  | nil => simp at h
  | cons a rest ih =>
      by_cases ha : a.1 = k
      · simp [catGet, ha]
      · have h' : rest.any (fun kv => kv.1 == k) = true := by
          simpa [List.any_cons, ha] using h
        simpa [catGet, ha] using ih h'

lemma catGet_append_single_self (c : Catalog) (k : String) (v : ℚ)
    (h : c.any (fun kv => kv.1 == k) = false) :
    catGet (c ++ [(k, v)]) k = some v := by
  induction c with
  | nil => simp [catGet]
  | cons a rest ih =>
      simp only [List.any_cons, Bool.or_eq_false_iff] at h
      have ha : ¬ a.1 = k := by simpa using h.1
      simpa [catGet, ha] using ih h.2

/-- Setting a key makes it readable. -/
lemma catGet_catSet_self (c : Catalog) (k : String) (v : ℚ) :
    catGet (catSet c k v) k = some v := by
  unfold catSet
  by_cases h : c.any (fun kv => kv.1 == k) = true
  · rw [if_pos h]; exact catGet_map_set_self c k v h
  · rw [if_neg h]
    exact catGet_append_single_self c k v (Bool.of_not_eq_true h)

lemma catGet_map_set_ne (c : Catalog) (k k' : String) (v : ℚ)
    (h : k' ≠ k) :
    catGet (c.map (fun kv => if kv.1 == k then (k, v) else kv)) k'
      = catGet c k' := by
  induction c with
  | nil => rfl
  | cons a rest ih =>
      simp only [beq_iff_eq] at ih
      by_cases ha : a.1 = k
      · have h1 : ¬ k = k' := fun e => h e.symm
        have h2 : ¬ a.1 = k' := by rw [ha]; exact h1
        simp [catGet, ha, h1, h2, ih]
      · simp [catGet, ha, ih]

lemma catGet_append_single_ne (c : Catalog) (k k' : String) (v : ℚ)
    (h : k' ≠ k) : catGet (c ++ [(k, v)]) k' = catGet c k' := by
  induction c with
  | nil =>
      have h1 : ¬ k = k' := fun e => h e.symm
      simp [catGet, h1]
  | cons a rest ih => simp [catGet, ih]

/-- Setting a key leaves every other key's value unchanged. -/
lemma catGet_catSet_ne (c : Catalog) (k k' : String) (v : ℚ)
    (h : k' ≠ k) : catGet (catSet c k v) k' = catGet c k' := by
  unfold catSet
  split
  · exact catGet_map_set_ne c k k' v h
  · exact catGet_append_single_ne c k k' v h


lemma if_lt_eq_max (i a : ℕ) : (if i < a then a else i) = max i a := by
  rcases le_or_lt a i with h | h
  · rw [max_eq_left h, if_neg (Nat.not_lt.mpr h)]
  · rw [max_eq_right h.le, if_pos h]

lemma chainMaxFloor_eq_foldl_max (d : List ℕ) :
    chainMaxFloor d = d.foldl max 0 := by
  unfold chainMaxFloor
  exact List.foldl_ext _ max 0 (fun acc l _ => if_lt_eq_max acc l)

lemma foldl_max_le_iff (d : List ℕ) (i n : ℕ) :
    d.foldl max i ≤ n ↔ i ≤ n ∧ ∀ l ∈ d, l ≤ n := by
  induction d generalizing i with
  | nil => simp
  | cons a t ih =>
      simp only [List.foldl_cons, ih, max_le_iff, List.mem_cons]
      constructor
      · rintro ⟨⟨h1, h2⟩, h3⟩
        exact ⟨h1, fun l hl => hl.elim (fun e => e ▸ h2) (h3 l)⟩
      · rintro ⟨h1, h2⟩
        exact ⟨⟨h1, h2 a (Or.inl rfl)⟩, fun l hl => h2 l (Or.inr hl)⟩

lemma alignPad_length (c : VCol) (d : List ℕ) :
    (alignPad c d).length = max c.transf.length (chainMaxFloor d) := by
  simp [alignPad]
  omega

/-- When no dependency chain is longer, the alignment pass pads nothing. -/
lemma alignPad_noop (c : VCol) (d : List ℕ)
    (h : ∀ l ∈ d, l ≤ c.transf.length) : alignPad c d = c.transf := by
  have hm : chainMaxFloor d ≤ c.transf.length := by
    rw [chainMaxFloor_eq_foldl_max]
    exact (foldl_max_le_iff d 0 c.transf.length).mpr ⟨Nat.zero_le _, h⟩
  simp [alignPad, Nat.sub_eq_zero_of_le hm]

/-- Aligning twice to the same dependency lengths equals aligning once. -/
lemma alignPad_idem (c : VCol) (d : List ℕ) (a : String) (k : Catalog) :
    alignPad ⟨a, alignPad c d, k⟩ d = alignPad c d := by
  have hlen : chainMaxFloor d ≤ (alignPad c d).length := by
    rw [alignPad_length]; exact le_max_right _ _
  show alignPad c d ++ _ = alignPad c d
  simp [Nat.sub_eq_zero_of_le hlen]

/-- The padding appended by alignment consists only of identity steps built
from the column's current type and category. -/
lemma alignPad_spec (c : VCol) (d : List ℕ) :
    alignPad c d =
      c.transf ++
        List.replicate (chainMaxFloor d - c.transf.length)
          ⟨"{}", c.ctype, c.category⟩ := rfl

/-- C2: on the three degenerate-statistics guards (`std == 0` for zscore
without partition, `max - min == 0` for minmax without partition, scaled
`mad == 0` for robust_zscore) `normalize` warns, raises nothing and leaves
the chain and catalog untouched — but it executes `return self`, handing
back the `vDataColumn` itself rather than the parent `vDataFrame` that the
claim and the method's own docstring (`Returns: vDataFrame self._parent`)
promise. -/
theorem C2_degenerate_guard_returns_column :
    dcNormalize envZero colFloat NormMethod.zscore [] false
        = ⟨NormRet.selfColumn colFloat, true, false⟩ ∧
    dcNormalize envZero colFloat NormMethod.minmax [] false
        = ⟨NormRet.selfColumn colFloat, true, false⟩ ∧
    dcNormalize envZero colFloat NormMethod.robust_zscore [] false
        = ⟨NormRet.selfColumn colFloat, true, false⟩ ∧
    ∀ c : VCol, NormRet.selfColumn c ≠ NormRet.parentTable c := by
  have hb : colFloat.isbool = false := by decide
  have hn : colFloat.isnum = true := by decide
  have hstd : (envZero.aggStd == 0) = true := by decide
  have hmm : (envZero.aggMax - envZero.aggMin == 0) = true := by
    norm_num [envZero]
  have hmad : (envZero.aggMad * madConst == 0) = true := by
    norm_num [envZero, madConst]
  refine ⟨?_, ?_, ?_, fun c h => NormRet.noConfusion h⟩
  · unfold dcNormalize
    simp [hb, hn, hstd]
  · unfold dcNormalize
    simp [hb, hn, hmm]
  · unfold dcNormalize
    simp [hb, hn, hmad]

/-- C8: `robust_zscore` with a non-empty partition list warns and returns
the column unchanged: nothing is appended to the transformation chain and
the invalid combination is reported immediately. -/
theorem C8_robust_partition_noop (env : NormEnv) (c : VCol) (b : String)
    (bs : List String) (rt : Bool) (hnum : c.isnum = true)
    (hbool : c.isbool = false) :
    dcNormalize env c NormMethod.robust_zscore (b :: bs) rt
      = ⟨NormRet.selfColumn c, true, false⟩ := by
  unfold dcNormalize
  simp [hbool, hnum]

/-- Witness for C8 at a concrete numeric column and partition list. -/
theorem C8_robust_partition_noop_witness :
    dcNormalize envZero colFloat NormMethod.robust_zscore ["g"] false
      = ⟨NormRet.selfColumn colFloat, true, false⟩ :=
  C8_robust_partition_noop envZero colFloat "g" [] false (by decide) (by decide)

/-- C10: `discretize` with method `topk` raises `ParameterError` whenever
`k < 2`, leaving the chain unmodified, and builds and commits the collapse
expression (top-k categories kept, everything else sent to the replacement
label) only for `k ≥ 2`. -/
theorem C10_discretize_topk (c : VCol) (k : ℤ) (distinct : List PyScalar)
    (nc cs : String) (rc : ℚ) :
    (k < 2 →
      ∀ rt, discretize_topk c k distinct nc cs rt rc = ⟨c, DiscOutcome.err⟩) ∧
    (2 ≤ k →
      discretize_topk c k distinct nc cs false rc =
        ⟨⟨c._alias, c.transf ++ [discretizeTopkTrans cs distinct nc],
          (carryCountPercent c.catalog rc).1⟩, DiscOutcome.ok⟩) := by
  constructor
  · intro h rt
    unfold discretize_topk
    rw [if_pos h]
  · intro h
    unfold discretize_topk
    rw [if_neg (not_lt.mpr h), if_neg (Bool.false_ne_true)]

/-- Witness for C10 at `k = 1` (rejected) and `k = 2` (committed). -/
theorem C10_discretize_topk_witness :
    discretize_topk colFloat 1 [] "Others" "{}" false 100
        = ⟨colFloat, DiscOutcome.err⟩ ∧
    discretize_topk colFloat 2 [] "Others" "{}" false 100
        = ⟨⟨colFloat._alias,
            colFloat.transf ++ [discretizeTopkTrans "{}" [] "Others"],
            (carryCountPercent colFloat.catalog 100).1⟩, DiscOutcome.ok⟩ :=
  ⟨(C10_discretize_topk colFloat 1 [] "Others" "{}" 100).1 (by decide) false,
   (C10_discretize_topk colFloat 2 [] "Others" "{}" 100).2 (by decide)⟩


/-- C3 counterexample: with one partition column of cardinality 60 (≥ 50),
`minmax` still attempts the grouped strategy, contradicting the claim that
the windowed form is then used directly without a grouped attempt. -/
theorem C3_counterexample :
    50 ≤ envStats.nunique ∧
    (dcNormalize envStats colFloat NormMethod.minmax ["g"] false
      ).groupedAttempted = true := by
  decide

/-- C3 (amended): the grouped attempt is gated by `n == 1` together with
cardinality `< 50` for zscore, but only by `n == 1` for minmax (no
cardinality gate); with a non-empty partition the committed expression is
always the windowed `OVER (PARTITION BY ...)` form — the grouped attempt,
when made, always fails (its body dereferences an unbound name after the
fetch) and falls back to the windowed form. -/
theorem C3_grouped_attempt_gating (env : NormEnv) (c : VCol)
    (by_ : List String) (rt : Bool) (hnum : c.isnum = true)
    (hbool : c.isbool = false) :
    ((dcNormalize env c NormMethod.zscore by_ rt).groupedAttempted
        = (by_.length == 1 && env.nunique < 50)) ∧
    ((dcNormalize env c NormMethod.minmax by_ rt).groupedAttempted
        = (by_.length == 1)) ∧
    (∀ b bs, by_ = b :: bs →
      (dcNormalize env c NormMethod.zscore by_ false).ret
        = NormRet.parentTable (normCommit env c NormMethod.zscore by_
            ⟨"({} - " ++ ("AVG(" ++ c._alias ++ ") OVER (PARTITION BY " ++
                String.intercalate ", " by_ ++ ")") ++ ") / " ++
                "NULLIFZERO" ++ "(" ++ ("STDDEV(" ++ c._alias ++
                ") OVER (PARTITION BY " ++ String.intercalate ", " by_ ++
                ")") ++ ")", "float", "float"⟩)) ∧
    (∀ b bs, by_ = b :: bs →
      (dcNormalize env c NormMethod.minmax by_ false).ret
        = NormRet.parentTable (normCommit env c NormMethod.minmax by_
            ⟨"({} - " ++ ("MIN(" ++ c._alias ++ ") OVER (PARTITION BY " ++
                String.intercalate ", " by_ ++ ")") ++ ") / " ++
                "NULLIFZERO" ++ "(" ++ ("MAX(" ++ c._alias ++
                ") OVER (PARTITION BY " ++ String.intercalate ", " by_ ++
                ")") ++ " - " ++ ("MIN(" ++ c._alias ++
                ") OVER (PARTITION BY " ++ String.intercalate ", " by_ ++
                ")") ++ ")", "float", "float"⟩)) := by
  refine ⟨?_, ?_, ?_, ?_⟩
  · rcases by_ with _ | ⟨b, bs⟩
    · unfold dcNormalize
      simp [hbool, hnum]
      split_ifs <;> rfl
    · unfold dcNormalize
      simp [hbool, hnum]
      split_ifs <;> rfl
  · rcases by_ with _ | ⟨b, bs⟩
    · unfold dcNormalize
      simp [hbool, hnum]
      split_ifs <;> rfl
    · unfold dcNormalize
      simp [hbool, hnum]
      split_ifs <;> rfl
  · rintro b bs rfl
    unfold dcNormalize
    simp [hbool, hnum]
  · rintro b bs rfl
    unfold dcNormalize
    simp [hbool, hnum]

/-- Witness for C3's amended statement at a concrete partitioned call. -/
theorem C3_grouped_attempt_gating_witness :
    (dcNormalize envStats colFloat NormMethod.zscore ["g"] false
      ).groupedAttempted = (["g"].length == 1 && envStats.nunique < 50) ∧
    (dcNormalize envStats colFloat NormMethod.minmax ["g"] false).ret
      = NormRet.parentTable (normCommit envStats colFloat NormMethod.minmax
          ["g"]
          ⟨"({} - " ++ ("MIN(" ++ colFloat._alias ++
              ") OVER (PARTITION BY " ++ String.intercalate ", " ["g"] ++
              ")") ++ ") / " ++ "NULLIFZERO" ++ "(" ++ ("MAX(" ++
              colFloat._alias ++ ") OVER (PARTITION BY " ++
              String.intercalate ", " ["g"] ++ ")") ++ " - " ++ ("MIN(" ++
              colFloat._alias ++ ") OVER (PARTITION BY " ++
              String.intercalate ", " ["g"] ++ ")") ++ ")",
            "float", "float"⟩) :=
  ⟨(C3_grouped_attempt_gating envStats colFloat ["g"] false (by decide)
      (by decide)).1,
   (C3_grouped_attempt_gating envStats colFloat ["g"] false (by decide)
      (by decide)).2.2.2 "g" [] rfl⟩

/-- C4 counterexample: with no partition (`avg = 0`, `std = 1`) the zscore
step's template is `({} - 0) / (1)` — the `NULLIFZERO` guard the claim
promises is absent, because `nullifzero` is set to `0` exactly when the
partition list is empty. -/
theorem C4_counterexample :
    (dcNormalize envStats colFloat NormMethod.zscore [] false).ret
      = NormRet.parentTable (normCommit envStats colFloat NormMethod.zscore []
          ⟨"({} - 0) / (1)", "float", "float"⟩) ∧
    "({} - 0) / (1)" ≠ "({} - 0) / NULLIFZERO(1)" := by
  decide

/-- C4 (amended): with an empty partition list and non-degenerate
statistics, `normalize` appends exactly one step; its template is the
unguarded division `({} - avg) / (std)` for zscore and
`({} - min) / (max - min)` for minmax (`NULLIFZERO` appears only in the
partitioned forms, the degenerate denominator having been excluded by the
guard); the rendered minmax expression at `min = 1`, `max = 5` applied to
the value 3 yields 1/2. -/
theorem C4_no_partition_template (env : NormEnv) (c : VCol)
    (hnum : c.isnum = true) (hbool : c.isbool = false) :
    ((env.aggStd == 0) = false →
      dcNormalize env c NormMethod.zscore [] false
        = ⟨NormRet.parentTable (normCommit env c NormMethod.zscore []
            ⟨"({} - " ++ ratStr env.aggAvg ++ ") / " ++ "(" ++
              ratStr env.aggStd ++ ")", "float", "float"⟩), false, false⟩) ∧
    ((env.aggMax - env.aggMin == 0) = false →
      dcNormalize env c NormMethod.minmax [] false
        = ⟨NormRet.parentTable (normCommit env c NormMethod.minmax []
            ⟨"({} - " ++ ratStr env.aggMin ++ ") / " ++ "(" ++
              ratStr env.aggMax ++ " - " ++ ratStr env.aggMin ++ ")",
              "float", "float"⟩), false, false⟩) ∧
    (∀ st, (normCommit env c NormMethod.zscore [] st).transf
        = c.transf ++ [st]) ∧
    (∀ st, (normCommit env c NormMethod.minmax [] st).transf
        = c.transf ++ [st]) ∧
    minmaxApply 1 5 3 = 1 / 2 := by
  refine ⟨?_, ?_, ?_, ?_, ?_⟩
  · intro hstd
    unfold dcNormalize
    simp [hbool, hnum, hstd]
  · intro hmm
    unfold dcNormalize
    simp [hbool, hnum, hmm]
  · intro st
    show alignPad c ([].map env.parentLen) ++ [st] = c.transf ++ [st]
    simp [alignPad, chainMaxFloor]
  · intro st
    show alignPad c ([].map env.parentLen) ++ [st] = c.transf ++ [st]
    simp [alignPad, chainMaxFloor]
  · norm_num [minmaxApply]

/-- Witness for C4's amended statement at concrete statistics. -/
theorem C4_no_partition_template_witness :
    dcNormalize envStats colFloat NormMethod.minmax [] false
      = ⟨NormRet.parentTable (normCommit envStats colFloat NormMethod.minmax
          []
          ⟨"({} - " ++ ratStr envStats.aggMin ++ ") / " ++ "(" ++
            ratStr envStats.aggMax ++ " - " ++ ratStr envStats.aggMin ++
            ")", "float", "float"⟩), false, false⟩ :=
  (C4_no_partition_template envStats colFloat (by decide) (by decide)).2.1
    (by norm_num [envStats])

lemma catSet_append_of_fresh (acc : Catalog) (k : String) (v : ℚ)
    (h : acc.any (fun kv => kv.1 == k) = false) :
    catSet acc k v = acc ++ [(k, v)] := by
  unfold catSet
  rw [if_neg]
  simp [h]

lemma foldl_catSet_of_disjoint :
    ∀ (l acc : Catalog),
      (∀ kv ∈ l, acc.any (fun e => e.1 == kv.1) = false) →
      (l.map Prod.fst).Nodup →
      l.foldl (fun cc kv => catSet cc kv.1 kv.2) acc = acc ++ l := by
  intro l
  induction l with
  | nil => intro acc _ _; simp
  | cons kv rest ih =>
      intro acc hd hnd
      obtain ⟨k, v⟩ := kv
      simp only [List.map_cons, List.nodup_cons] at hnd
      rw [List.foldl_cons, catSet_append_of_fresh acc k v (hd (k, v) (by simp))]
      rw [ih (acc ++ [(k, v)]) ?_ hnd.2]
      · simp
      · intro kv2 hkv2
        rw [List.any_append]
        have h1 : acc.any (fun e => e.1 == kv2.1) = false :=
          hd kv2 (List.mem_cons_of_mem _ hkv2)
        have h2 : ¬ k = kv2.1 := by
          intro e
          exact hnd.1 (e ▸ List.mem_map_of_mem Prod.fst hkv2)
        simp [h1, h2]

/-- Restoring a saved dict into an erased one rebuilds it verbatim. -/
lemma foldl_catSet_restore (l : Catalog) (h : (l.map Prod.fst).Nodup) :
    l.foldl (fun cc kv => catSet cc kv.1 kv.2) [] = l := by
  have := foldl_catSet_of_disjoint l [] (fun kv _ => rfl) h
  simpa using this

/-- C1: chain alignment pads with identity steps built from the column's
current type and category exactly up to the longest dependency chain, pads
nothing when no dependency chain is longer, is idempotent, and both
`normalize` (over the `by` columns) and `fillna` (over its partition
columns) append their new step only after this alignment pass. -/
theorem C1_chain_alignment :
    (∀ (c : VCol) (d : List ℕ),
      alignPad c d = c.transf ++
        List.replicate (chainMaxFloor d - c.transf.length)
          ⟨"{}", c.ctype, c.category⟩) ∧
    (∀ (c : VCol) (d : List ℕ),
      (alignPad c d).length = max c.transf.length (chainMaxFloor d)) ∧
    (∀ (c : VCol) (d : List ℕ), (∀ l ∈ d, l ≤ c.transf.length) →
      alignPad c d = c.transf) ∧
    (∀ (c : VCol) (d : List ℕ) (a : String) (k : Catalog),
      alignPad ⟨a, alignPad c d, k⟩ d = alignPad c d) ∧
    (∀ (env : NormEnv) (c : VCol) (by_ : List String) (st : TransStep),
      (normCommit env c NormMethod.zscore by_ st).transf
        = alignPad c (by_.map env.parentLen) ++ [st]) ∧
    (∀ (env : NormEnv) (c : VCol) (by_ : List String) (st : TransStep),
      (normCommit env c NormMethod.minmax by_ st).transf
        = alignPad c (by_.map env.parentLen) ++ [st]) ∧
    (∀ (fenv : FillEnv) (c : VCol) (by_ ob : List String),
      fenv.countOk = true →
      0 < |fenv.countAfter - fenv.countBefore| →
      (fillna fenv c none FillMethod.mean "" by_ ob).col.transf
        = alignPad c ((by_ ++ []).map fenv.parentLen) ++
          [⟨fillnaMeanTemplate fenv FillMethod.mean by_, "float",
            "float"⟩]) := by
  refine ⟨fun c d => rfl, alignPad_length, alignPad_noop, alignPad_idem,
    fun env c by_ st => rfl, fun env c by_ st => rfl, ?_⟩
  intro fenv c by_ ob hok htot
  have h1 : fillna fenv c none FillMethod.mean "" by_ ob
      = fillnaCommit fenv c
          (alignPad c ((by_ ++ []).map fenv.parentLen) ++
            [⟨fillnaMeanTemplate fenv FillMethod.mean by_, "float",
              "float"⟩]) := rfl
  rw [h1]
  unfold fillnaCommit
  simp only [hok, Bool.not_true, Bool.false_eq_true, if_false]
  rw [if_pos htot]

/-- Witness for C1 at concrete chains, dependencies and a committed
`fillna`. -/
theorem C1_chain_alignment_witness :
    alignPad colFloat [1] = colFloat.transf ∧
    alignPad ⟨"y", alignPad colFloat [3], []⟩ [3] = alignPad colFloat [3] ∧
    (fillna fenvA colFloat none FillMethod.mean "" ["g"] []).col.transf
      = alignPad colFloat ((["g"] ++ []).map fenvA.parentLen) ++
        [⟨fillnaMeanTemplate fenvA FillMethod.mean ["g"], "float",
          "float"⟩] :=
  ⟨C1_chain_alignment.2.2.1 colFloat [1] (by decide),
   C1_chain_alignment.2.2.2.1 colFloat [3] "y" [],
   C1_chain_alignment.2.2.2.2.2.2 fenvA colFloat ["g"] [] (by decide)
     (by decide)⟩

/-- C6: in the commit-or-rollback phase of `fillna`, a zero before/after
count delta rolls the speculative step back completely — chain and catalog
end byte-for-byte identical to the pre-call state — and reports "nothing
filled"; a positive delta commits the speculatively extended chain, bumps
the cached `count` by the delta, and reports the delta as the number of
filled values.  The last conjunct ties the phase to a concrete `fillna`
call (method `mean`): the call is exactly this phase applied to the aligned
chain plus the new step. -/
theorem C6_fillna_rollback_commit :
    (∀ (env : FillEnv) (c : VCol) (t2 : List TransStep),
      env.countOk = true →
      (c.catalog.map Prod.fst).Nodup →
      env.countAfter - env.countBefore = 0 →
      fillnaCommit env c t2 = ⟨c, FillOutcome.nothingFilled⟩) ∧
    (∀ (env : FillEnv) (c : VCol) (t2 : List TransStep),
      env.countOk = true →
      0 < |env.countAfter - env.countBefore| →
      (fillnaCommit env c t2).outcome
          = FillOutcome.filled |env.countAfter - env.countBefore| ∧
      (fillnaCommit env c t2).col.transf = t2 ∧
      ∀ cnt : ℚ, catGet c.catalog "count" = some cnt →
        (env.rowCount == 0) = false →
        catGet (fillnaCommit env c t2).col.catalog "count"
          = some ((pyInt cnt : ℚ) +
              ((|env.countAfter - env.countBefore| : ℤ) : ℚ))) ∧
    (∀ (fenv : FillEnv) (c : VCol) (by_ ob : List String),
      fillna fenv c none FillMethod.mean "" by_ ob
        = fillnaCommit fenv c
            (alignPad c ((by_ ++ []).map fenv.parentLen) ++
              [⟨fillnaMeanTemplate fenv FillMethod.mean by_, "float",
                "float"⟩])) := by
  refine ⟨?_, ?_, fun fenv c by_ ob => rfl⟩
  · intro env c t2 hok hnd hzero
    unfold fillnaCommit
    simp only [hok, Bool.not_true, Bool.false_eq_true, if_false]
    have habs : |env.countAfter - env.countBefore| = 0 := by
      rw [hzero]; exact abs_zero
    rw [if_neg (by rw [habs]; exact lt_irrefl 0)]
    rw [foldl_catSet_restore c.catalog hnd]
  · intro env c t2 hok htot
    unfold fillnaCommit
    simp only [hok, Bool.not_true, Bool.false_eq_true, if_false]
    rw [if_pos htot]
    refine ⟨rfl, rfl, ?_⟩
    intro cnt hcnt hrc
    show catGet
      (match catGet c.catalog "count" with
        | some cnt =>
            let newCount : ℚ := (pyInt cnt : ℚ) +
              ((|env.countAfter - env.countBefore| : ℤ) : ℚ)
            if env.rowCount == 0 then catSet [] "count" newCount
            else catSet (catSet [] "count" newCount) "percent"
              (100 * newCount / env.rowCount)
        | none => []) "count" = _
    rw [hcnt]
    simp only [hrc, Bool.false_eq_true, if_false]
    rw [catGet_catSet_ne _ _ _ _ (by decide), catGet_catSet_self]

/-- Witness for C6 at a rolled-back and a committed concrete call. -/
theorem C6_fillna_rollback_commit_witness :
    fillnaCommit fenvB colPercent []
        = ⟨colPercent, FillOutcome.nothingFilled⟩ ∧
    (fillnaCommit fenvA colPercent []).outcome
        = FillOutcome.filled |fenvA.countAfter - fenvA.countBefore| ∧
    catGet (fillnaCommit fenvA colPercent []).col.catalog "count"
        = some ((pyInt 50 : ℚ) +
            ((|fenvA.countAfter - fenvA.countBefore| : ℤ) : ℚ)) :=
  ⟨C6_fillna_rollback_commit.1 fenvB colPercent [] (by decide) (by decide)
      (by decide),
   (C6_fillna_rollback_commit.2.1 fenvA colPercent [] (by decide)
      (by decide)).1,
   (C6_fillna_rollback_commit.2.1 fenvA colPercent [] (by decide)
      (by decide)).2.2 50 (by decide) (by decide)⟩

lemma topLoop_get_fresh (m : NormMethod) (sauv : Catalog) :
    ∀ (pending : List (String × ℚ)) (cat : Catalog) (k : String),
      k ∉ pending.map Prod.fst →
      catGet (topLoop m sauv cat pending) k = catGet cat k := by
  intro pending
  induction pending with
  | nil => intro cat k _; rfl
  | cons kv rest ih =>
      intro cat k hk
      obtain ⟨k1, v1⟩ := kv
      simp only [List.map_cons, List.mem_cons, not_or] at hk
      have hne : k ≠ k1 := hk.1
      simp only [topLoop]
      by_cases h1 : pyContains k1 "top" = true
      · rw [if_pos h1]
        by_cases h2 : pyContains k1 "percent" = true
        · rw [if_pos h2, ih _ _ hk.2, catGet_catSet_ne _ _ _ _ hne]
        · rw [if_neg h2]
          cases hr : topRescale m sauv v1 with
          | some w => rw [ih _ _ hk.2, catGet_catSet_ne _ _ _ _ hne]
          | none => rfl
      · rw [if_neg h1]
        exact ih _ _ hk.2

lemma topLoop_get_no_top (m : NormMethod) (sauv : Catalog) :
    ∀ (pending : List (String × ℚ)) (cat : Catalog) (k : String),
      pyContains k "top" = false →
      catGet (topLoop m sauv cat pending) k = catGet cat k := by
  intro pending
  induction pending with
  | nil => intro cat k _; rfl
  | cons kv rest ih =>
      intro cat k hk
      obtain ⟨k1, v1⟩ := kv
      simp only [topLoop]
      by_cases h1 : pyContains k1 "top" = true
      · have hne : k ≠ k1 := by
          intro e; rw [e, h1] at hk; exact Bool.noConfusion hk
        rw [if_pos h1]
        by_cases h2 : pyContains k1 "percent" = true
        · rw [if_pos h2, ih _ _ hk, catGet_catSet_ne _ _ _ _ hne]
        · rw [if_neg h2]
          cases hr : topRescale m sauv v1 with
          | some w => rw [ih _ _ hk, catGet_catSet_ne _ _ _ _ hne]
          | none => rfl
      · rw [if_neg h1]
        exact ih _ _ hk

lemma topLoop_get_mem (m : NormMethod) (sauv : Catalog) :
    ∀ (pending : List (String × ℚ)) (cat : Catalog) (k : String) (v : ℚ),
      (pending.map Prod.fst).Nodup →
      (∀ kv ∈ pending, pyContains kv.1 "top" = true →
        pyContains kv.1 "percent" = false →
        (topRescale m sauv kv.2).isSome = true) →
      (k, v) ∈ pending → pyContains k "top" = true →
      catGet (topLoop m sauv cat pending) k
        = if pyContains k "percent" = true then some v
          else topRescale m sauv v := by
  intro pending
  induction pending with
  | nil => intro cat k v _ _ hmem _; exact absurd hmem (List.not_mem_nil _)
  | cons kv rest ih =>
      intro cat k v hnd hsafe hmem htop
      obtain ⟨k1, v1⟩ := kv
      simp only [List.map_cons, List.nodup_cons] at hnd
      rcases List.mem_cons.mp hmem with heq | hmem'
      · obtain ⟨e1, e2⟩ := Prod.mk.injEq .. ▸ heq
        subst e1
        subst e2
        have hfresh : k ∉ rest.map Prod.fst := hnd.1
        simp only [topLoop]
        rw [if_pos htop]
        by_cases h2 : pyContains k "percent" = true
        · rw [if_pos h2, topLoop_get_fresh m sauv rest _ _ hfresh,
            catGet_catSet_self, if_pos h2]
        · have hs := hsafe (k, v) (by simp) htop (Bool.of_not_eq_true h2)
          cases hr : topRescale m sauv v with
          | some w =>
              have hres : catGet (topLoop m sauv (catSet cat k w) rest) k
                  = some w := by
                rw [topLoop_get_fresh m sauv rest _ _ hfresh,
                  catGet_catSet_self]
              simpa [h2] using hres
          | none => rw [hr] at hs; exact Bool.noConfusion hs
      · have hkne : k ≠ k1 := by
          intro e
          exact hnd.1 (e ▸ List.mem_map_of_mem Prod.fst hmem')
        have hsafe' : ∀ kv ∈ rest, pyContains kv.1 "top" = true →
            pyContains kv.1 "percent" = false →
            (topRescale m sauv kv.2).isSome = true :=
          fun kv hkv => hsafe kv (List.mem_cons_of_mem _ hkv)
        simp only [topLoop]
        by_cases h1 : pyContains k1 "top" = true
        · rw [if_pos h1]
          by_cases h2 : pyContains k1 "percent" = true
          · rw [if_pos h2]
            exact ih _ _ _ hnd.2 hsafe' hmem' htop
          · have hs := hsafe (k1, v1) (by simp) h1 (Bool.of_not_eq_true h2)
            cases hr : topRescale m sauv v1 with
            | some w =>
                rw [if_neg h2]
                exact ih _ _ _ hnd.2 hsafe' hmem' htop
            | none => rw [hr] at hs; exact Bool.noConfusion hs
        · rw [if_neg h1]
          exact ih _ _ _ hnd.2 hsafe' hmem' htop

lemma ne_of_top (k s : String) (h : pyContains k "top" = true)
    (hs : pyContains s "top" = false) : k ≠ s := by
  intro e
  rw [e, hs] at h
  exact Bool.noConfusion h

/-- C5 (amended): after a successful normalization the committed catalog is
`rewriteAfterNorm` of the saved one; there `count` is carried forward
unchanged while `percent` is recomputed as `100·count/rowcount` (not
carried); every cached `topK` value is rescaled with the formula just
applied provided the required statistics are among the saved entries (with
a nonzero divisor) — otherwise the rescaling loop aborts; `topK_percent`
entries are carried unchanged; and the catalog's own statistics are reset
to the canonical post-normalization values (0/1 for zscore over
`mean`/`std`, 0/1 for minmax over `min`/`max`, 0 and `1/1.4826` for
robust_zscore over `median`/`mad`) without re-querying. -/
theorem C5_catalog_rewrite
    (sauv : Catalog) (rowCount : ℚ) (method : NormMethod) (cnt : ℚ)
    (hnd : (sauv.map Prod.fst).Nodup)
    (hcnt : catGet sauv "count" = some cnt)
    (hrc : (rowCount == 0) = false)
    (hsafe : ∀ kv ∈ sauv, pyContains kv.1 "top" = true →
      pyContains kv.1 "percent" = false →
      (topRescale method sauv kv.2).isSome = true) :
    (∀ (env : NormEnv) (c : VCol) (by_ : List String) (st : TransStep),
      (normCommit env c method by_ st).catalog
        = rewriteAfterNorm c.catalog env.rowCount method) ∧
    catGet (rewriteAfterNorm sauv rowCount method) "count" = some cnt ∧
    catGet (rewriteAfterNorm sauv rowCount method) "percent"
      = some (100 * cnt / rowCount) ∧
    (∀ k v, (k, v) ∈ sauv → pyContains k "top" = true →
      pyContains k "percent" = false →
      catGet (rewriteAfterNorm sauv rowCount method) k
        = topRescale method sauv v) ∧
    (∀ k v, (k, v) ∈ sauv → pyContains k "top" = true →
      pyContains k "percent" = true →
      catGet (rewriteAfterNorm sauv rowCount method) k = some v) ∧
    (method = NormMethod.zscore →
      catGet (rewriteAfterNorm sauv rowCount method) "mean" = some 0 ∧
      catGet (rewriteAfterNorm sauv rowCount method) "std" = some 1) ∧
    (method = NormMethod.minmax →
      catGet (rewriteAfterNorm sauv rowCount method) "min" = some 0 ∧
      catGet (rewriteAfterNorm sauv rowCount method) "max" = some 1) ∧
    (method = NormMethod.robust_zscore →
      catGet (rewriteAfterNorm sauv rowCount method) "median" = some 0 ∧
      catGet (rewriteAfterNorm sauv rowCount method) "mad"
        = some (1 / madConst)) := by
  have hcarry : carryCountPercent sauv rowCount
      = ([("count", cnt), ("percent", 100 * cnt / rowCount)], true) := by
    unfold carryCountPercent
    rw [hcnt]
    simp only [hrc, Bool.false_eq_true, if_false]
  have hRdef : rewriteAfterNorm sauv rowCount method
      = (match method with
         | NormMethod.robust_zscore =>
             catSet (catSet (topLoop method sauv
               [("count", cnt), ("percent", 100 * cnt / rowCount)] sauv)
               "median" 0) "mad" (1 / madConst)
         | NormMethod.zscore =>
             catSet (catSet (topLoop method sauv
               [("count", cnt), ("percent", 100 * cnt / rowCount)] sauv)
               "mean" 0) "std" 1
         | NormMethod.minmax =>
             catSet (catSet (topLoop method sauv
               [("count", cnt), ("percent", 100 * cnt / rowCount)] sauv)
               "min" 0) "max" 1) := by
    cases method <;> (unfold rewriteAfterNorm; rw [hcarry]; rfl)
  have hreset : ∀ k : String, k ≠ "median" → k ≠ "mad" → k ≠ "mean" →
      k ≠ "std" → k ≠ "min" → k ≠ "max" →
      catGet (rewriteAfterNorm sauv rowCount method) k
        = catGet (topLoop method sauv
            [("count", cnt), ("percent", 100 * cnt / rowCount)] sauv) k := by
    intro k h1 h2 h3 h4 h5 h6
    rw [hRdef]
    cases method
    · exact (catGet_catSet_ne _ _ _ _ h4).trans (catGet_catSet_ne _ _ _ _ h3)
    · exact (catGet_catSet_ne _ _ _ _ h2).trans (catGet_catSet_ne _ _ _ _ h1)
    · exact (catGet_catSet_ne _ _ _ _ h6).trans (catGet_catSet_ne _ _ _ _ h5)
  refine ⟨fun env c by_ st => rfl, ?_, ?_, ?_, ?_, ?_, ?_, ?_⟩
  · rw [hreset "count" (by decide) (by decide) (by decide) (by decide)
      (by decide) (by decide)]
    rw [topLoop_get_no_top _ _ _ _ _ (by decide)]
    rfl
  · rw [hreset "percent" (by decide) (by decide) (by decide) (by decide)
      (by decide) (by decide)]
    rw [topLoop_get_no_top _ _ _ _ _ (by decide)]
    rfl
  · intro k v hmem htop hpf
    rw [hreset k (ne_of_top k _ htop (by decide))
      (ne_of_top k _ htop (by decide)) (ne_of_top k _ htop (by decide))
      (ne_of_top k _ htop (by decide)) (ne_of_top k _ htop (by decide))
      (ne_of_top k _ htop (by decide))]
    rw [topLoop_get_mem method sauv sauv _ k v hnd hsafe hmem htop]
    rw [if_neg (by rw [hpf]; exact Bool.false_ne_true)]
  · intro k v hmem htop hpt
    rw [hreset k (ne_of_top k _ htop (by decide))
      (ne_of_top k _ htop (by decide)) (ne_of_top k _ htop (by decide))
      (ne_of_top k _ htop (by decide)) (ne_of_top k _ htop (by decide))
      (ne_of_top k _ htop (by decide))]
    rw [topLoop_get_mem method sauv sauv _ k v hnd hsafe hmem htop]
    rw [if_pos hpt]
  · rintro rfl
    rw [hRdef]
    exact ⟨(catGet_catSet_ne _ _ _ _ (by decide)).trans
        (catGet_catSet_self _ _ _),
      catGet_catSet_self _ _ _⟩
  · rintro rfl
    rw [hRdef]
    exact ⟨(catGet_catSet_ne _ _ _ _ (by decide)).trans
        (catGet_catSet_self _ _ _),
      catGet_catSet_self _ _ _⟩
  · rintro rfl
    rw [hRdef]
    exact ⟨(catGet_catSet_ne _ _ _ _ (by decide)).trans
        (catGet_catSet_self _ _ _),
      catGet_catSet_self _ _ _⟩

/-- C5 counterexample: a column whose catalog caches `count = 50` and a
(stale) `percent = 37` over 100 rows.  After a no-partition zscore
normalization the rewritten catalog holds `percent = 50`, recomputed as
`100·count/rowcount` — the cached `percent` value is not carried forward
unchanged as the claim states. -/
theorem C5_counterexample :
    catGet colPercent.catalog "percent" = some 37 ∧
    catGet (rewriteAfterNorm colPercent.catalog 100 NormMethod.zscore)
        "percent" = some 50 ∧
    (37 : ℚ) ≠ 50 ∧
    (dcNormalize envStats colPercent NormMethod.zscore [] false).ret
      = NormRet.parentTable (normCommit envStats colPercent
          NormMethod.zscore [] ⟨"({} - 0) / (1)", "float", "float"⟩) ∧
    (normCommit envStats colPercent NormMethod.zscore []
        ⟨"({} - 0) / (1)", "float", "float"⟩).catalog
      = rewriteAfterNorm colPercent.catalog 100 NormMethod.zscore := by
  have hcarry : carryCountPercent colPercent.catalog 100
      = ([("count", 50), ("percent", (100 : ℚ) * 50 / 100)], true) := by
    unfold carryCountPercent
    rfl
  have hval : ((100 : ℚ) * 50 / 100) = 50 := by norm_num
  refine ⟨by decide, ?_, by norm_num, ?_, rfl⟩
  · have h1 : catGet (rewriteAfterNorm colPercent.catalog 100
        NormMethod.zscore) "percent" = some ((100 : ℚ) * 50 / 100) := by
      unfold rewriteAfterNorm
      rw [hcarry]
      show catGet (catSet (catSet (topLoop NormMethod.zscore
        colPercent.catalog [("count", 50), ("percent", (100 : ℚ) * 50 / 100)]
        colPercent.catalog) "mean" 0) "std" 1) "percent" = _
      rw [catGet_catSet_ne _ _ _ _ (by decide),
        catGet_catSet_ne _ _ _ _ (by decide),
        topLoop_get_no_top _ _ _ _ _ (by decide)]
      rfl
    rw [h1, hval]
  · have hb : colPercent.isbool = false := by decide
    have hn : colPercent.isnum = true := by decide
    have hstd : (envStats.aggStd == 0) = false := by decide
    unfold dcNormalize
    simp [hb, hn, hstd]
    rfl

/-- Witness for C5's amended statement at a concrete saved catalog. -/
theorem C5_catalog_rewrite_witness :
    catGet (rewriteAfterNorm colPercent.catalog 100 NormMethod.zscore)
        "count" = some 50 ∧
    catGet (rewriteAfterNorm colPercent.catalog 100 NormMethod.zscore)
        "mean" = some 0 ∧
    catGet (rewriteAfterNorm colPercent.catalog 100 NormMethod.zscore)
        "std" = some 1 :=
  ⟨(C5_catalog_rewrite colPercent.catalog 100 NormMethod.zscore 50
      (by decide) (by decide) (by decide) (by decide)).2.1,
   ((C5_catalog_rewrite colPercent.catalog 100 NormMethod.zscore 50
      (by decide) (by decide) (by decide) (by decide)).2.2.2.2.2.1 rfl).1,
   ((C5_catalog_rewrite colPercent.catalog 100 NormMethod.zscore 50
      (by decide) (by decide) (by decide) (by decide)).2.2.2.2.2.1 rfl).2⟩

lemma logb2_100_floor : ⌊Real.logb 2 (100 : ℝ)⌋ = (6 : ℤ) := by
  have hb : (1 : ℝ) < 2 := by norm_num
  have h100 : (0 : ℝ) < 100 := by norm_num
  rw [Int.floor_eq_iff]
  constructor
  · rw [show ((6 : ℤ) : ℝ) = (6 : ℝ) by norm_num]
    rw [Real.le_logb_iff_rpow_le hb h100]
    rw [show (6 : ℝ) = ((6 : ℕ) : ℝ) by norm_num, Real.rpow_natCast]
    norm_num
  · rw [show ((6 : ℤ) : ℝ) + 1 = (7 : ℝ) by norm_num]
    rw [Real.logb_lt_iff_lt_rpow hb h100]
    rw [show (7 : ℝ) = ((7 : ℕ) : ℝ) by norm_num, Real.rpow_natCast]
    norm_num

lemma cbrt100_ge : (3.2 : ℝ) ≤ (100 : ℝ) ^ ((1 : ℝ) / 3) := by
  have hpos : (0 : ℝ) < (100 : ℝ) ^ ((1 : ℝ) / 3) :=
    Real.rpow_pos_of_pos (by norm_num) _
  have hc3 : ((100 : ℝ) ^ ((1 : ℝ) / 3)) ^ (3 : ℕ) = 100 := by
    rw [← Real.rpow_natCast ((100 : ℝ) ^ ((1 : ℝ) / 3)) 3,
      ← Real.rpow_mul (by norm_num : (0 : ℝ) ≤ 100)]
    norm_num
  by_contra h
  push_neg at h
  have hlt : ((100 : ℝ) ^ ((1 : ℝ) / 3)) ^ (3 : ℕ) < (3.2 : ℝ) ^ (3 : ℕ) :=
    pow_lt_pow_left₀ h (le_of_lt hpos) (by norm_num)
  rw [hc3] at hlt
  norm_num at hlt

/-- C7: `numh` computes Sturges' width `range / int(floor(log(n,2) + 2))`
(equal to `range / (floor(log2 n) + 2)`) and the Freedman-Diaconis width
`2*IQR / n^(1/3)`, each floored at `1e-99`; `auto` returns their maximum
and caches it under the catalog key `numh`; at `n = 100`, `IQR = 10`,
`range = 50` the `auto` result is `6.25`; for an `int`-category column the
returned value is an integer bounded below by 1. -/
theorem C7_numh :
    (∀ (count : ℕ) (vmin q1 q3 vmax : ℝ),
      numh none count vmin q1 q3 vmax false NumhMethod.auto
        = ⟨max (max ((vmax - vmin) / (⌊Real.logb 2 (count : ℝ) + 2⌋ : ℝ))
                 (1e-99 : ℝ))
               (max (2 * (q3 - q1) / (count : ℝ) ^ ((1 : ℝ) / 3))
                 (1e-99 : ℝ)),
            some (max (max ((vmax - vmin) /
                     (⌊Real.logb 2 (count : ℝ) + 2⌋ : ℝ)) (1e-99 : ℝ))
               (max (2 * (q3 - q1) / (count : ℝ) ^ ((1 : ℝ) / 3))
                 (1e-99 : ℝ)))⟩) ∧
    (∀ count : ℕ, (⌊Real.logb 2 (count : ℝ) + 2⌋ : ℤ)
        = ⌊Real.logb 2 (count : ℝ)⌋ + 2) ∧
    (numh none 100 0 0 10 50 false NumhMethod.auto).value = 6.25 ∧
    (numh none 100 0 0 10 50 false NumhMethod.auto).cachedNumh
        = some 6.25 ∧
    (∀ (count : ℕ) (vmin q1 q3 vmax : ℝ) (m : NumhMethod),
      1 ≤ (numh none count vmin q1 q3 vmax true m).value ∧
      ∃ z : ℤ, (numh none count vmin q1 q3 vmax true m).value = (z : ℝ)) := by
  have hcast : ((100 : ℕ) : ℝ) = (100 : ℝ) := by norm_num
  have hfloor : ⌊Real.logb 2 ((100 : ℕ) : ℝ) + 2⌋ = (8 : ℤ) := by
    rw [hcast, show (2 : ℝ) = ((2 : ℕ) : ℝ) by norm_num, Int.floor_add_nat]
    push_cast
    rw [logb2_100_floor]
    norm_num
  have hval : (numh none 100 0 0 10 50 false NumhMethod.auto).value
      = max (max (((50 : ℝ) - 0) / (⌊Real.logb 2 ((100 : ℕ) : ℝ) + 2⌋ : ℝ))
            (1e-99 : ℝ))
          (max (2 * ((10 : ℝ) - 0) / ((100 : ℕ) : ℝ) ^ ((1 : ℝ) / 3))
            (1e-99 : ℝ)) := rfl
  have hsturges : max (((50 : ℝ) - 0) /
        (⌊Real.logb 2 ((100 : ℕ) : ℝ) + 2⌋ : ℝ)) (1e-99 : ℝ)
      = (6.25 : ℝ) := by
    rw [hfloor]
    rw [max_eq_left (by norm_num)]
    norm_num
  have hfd : max (2 * ((10 : ℝ) - 0) / ((100 : ℕ) : ℝ) ^ ((1 : ℝ) / 3))
        (1e-99 : ℝ) ≤ (6.25 : ℝ) := by
    rw [hcast]
    have hpos : (0 : ℝ) < (100 : ℝ) ^ ((1 : ℝ) / 3) :=
      Real.rpow_pos_of_pos (by norm_num) _
    have h1 : 2 * ((10 : ℝ) - 0) / (100 : ℝ) ^ ((1 : ℝ) / 3) ≤ 6.25 := by
      rw [div_le_iff₀ hpos]
      calc 2 * ((10 : ℝ) - 0) = 6.25 * 3.2 := by norm_num
        _ ≤ 6.25 * (100 : ℝ) ^ ((1 : ℝ) / 3) := by
            exact mul_le_mul_of_nonneg_left cbrt100_ge (by norm_num)
    exact max_le h1 (by norm_num)
  have h625 : (numh none 100 0 0 10 50 false NumhMethod.auto).value
      = 6.25 := by
    rw [hval, hsturges]
    rw [max_eq_left (hsturges ▸ hfd)]
  refine ⟨fun count vmin q1 q3 vmax => rfl, ?_, h625, ?_, ?_⟩
  · intro count
    rw [show (2 : ℝ) = ((2 : ℕ) : ℝ) by norm_num, Int.floor_add_nat]
    norm_num
  · have hcache : (numh none 100 0 0 10 50 false NumhMethod.auto).cachedNumh
        = some ((numh none 100 0 0 10 50 false NumhMethod.auto).value) :=
      rfl
    rw [hcache, h625]
  · intro count vmin q1 q3 vmax m
    cases m <;>
      (constructor
       · show (1 : ℝ) ≤ ((max ⌊_⌋ 1 : ℤ) : ℝ)
         exact_mod_cast le_max_right _ _
       · exact ⟨max ⌊_⌋ 1, rfl⟩)

lemma mapUpdate_eq_self (r : List (String × List String)) (g : String)
    (col : String) (h : g ∉ r.map Prod.fst) :
    r.map (fun kv => if kv.1 == g then (kv.1, kv.2 ++ [col]) else kv)
      = r := by
  induction r with
  | nil => rfl
  | cons a rest ih =>
      simp only [List.map_cons, List.mem_cons, not_or] at h
      have ha : (a.1 == g) = false :=
        beq_eq_false_iff_ne.mpr (fun e => h.1 e.symm)
      simp only [List.map_cons, ha, Bool.false_eq_true, if_false]
      rw [ih h.2]

lemma map_fst_update (r : List (String × List String)) (g : String)
    (col : String) :
    (r.map (fun kv => if kv.1 == g then (kv.1, kv.2 ++ [col]) else kv)).map
        Prod.fst
      = r.map Prod.fst := by
  induction r with
  | nil => rfl
  | cons a rest ih =>
      simp only [List.map_cons]
      rw [ih]
      by_cases ha : a.1 = g
      · simp [ha]
      · simp [ha]

lemma join_update (r : List (String × List String)) (g : String)
    (col : String) (hnd : (r.map Prod.fst).Nodup) :
    ((r.map (fun kv => if kv.1 == g then (kv.1, kv.2 ++ [col]) else kv)).map
        Prod.snd).flatten.Perm
      (if g ∈ r.map Prod.fst then (r.map Prod.snd).flatten ++ [col]
        else (r.map Prod.snd).flatten) := by
  induction r with
  | nil => simp
  | cons a rest ih =>
      simp only [List.map_cons, List.nodup_cons] at hnd
      by_cases ha : a.1 = g
      · have hnotin : g ∉ rest.map Prod.fst := ha ▸ hnd.1
        rw [if_pos (by simp [ha])]
        have hbeq : (a.1 == g) = true := beq_iff_eq.mpr ha
        simp only [List.map_cons, hbeq, if_true, List.flatten_cons]
        rw [mapUpdate_eq_self rest g col hnotin]
        rw [List.append_assoc, List.append_assoc]
        exact List.Perm.append_left _ List.perm_append_comm
      · have hstep := ih hnd.2
        have hbeq : (a.1 == g) = false := beq_eq_false_iff_ne.mpr ha
        simp only [List.map_cons, hbeq, Bool.false_eq_true, if_false,
          List.flatten_cons, List.mem_cons]
        by_cases hg : g ∈ rest.map Prod.fst
        · rw [if_pos (Or.inr hg)]
          rw [if_pos hg] at hstep
          rw [List.append_assoc]
          exact List.Perm.append_left _ hstep
        · rw [if_neg (by
            intro hor
            rcases hor with h1 | h2
            · exact ha h1.symm
            · exact hg h2)]
          rw [if_neg hg] at hstep
          exact List.Perm.append_left _ hstep

lemma groupInsert_inv (f : String → String)
    (r : List (String × List String)) (processed : List String)
    (col : String)
    (h1 : ∀ kl ∈ r, kl.2 = processed.filter (fun c => f c == kl.1))
    (h2 : (r.map Prod.fst).Nodup)
    (h3 : ∀ c ∈ processed, f c ∈ r.map Prod.fst)
    (h4 : ((r.map Prod.snd).flatten).Perm processed) :
    (∀ kl ∈ groupInsert f r col,
      kl.2 = (processed ++ [col]).filter (fun c => f c == kl.1)) ∧
    ((groupInsert f r col).map Prod.fst).Nodup ∧
    (∀ c ∈ processed ++ [col],
      f c ∈ (groupInsert f r col).map Prod.fst) ∧
    (((groupInsert f r col).map Prod.snd).flatten).Perm
      (processed ++ [col]) := by
  by_cases hex : r.any (fun kv => kv.1 == f col) = true
  · have hgr : groupInsert f r col
        = r.map (fun kv =>
            if kv.1 == f col then (kv.1, kv.2 ++ [col]) else kv) := by
      unfold groupInsert
      rw [if_pos hex]
    have hgmem : f col ∈ r.map Prod.fst := by
      obtain ⟨kv, hkv, hbeq⟩ := List.any_eq_true.mp hex
      exact (beq_iff_eq.mp hbeq) ▸ List.mem_map_of_mem Prod.fst hkv
    refine ⟨?_, ?_, ?_, ?_⟩
    · intro kl hkl
      rw [hgr] at hkl
      obtain ⟨kv, hkv, rfl⟩ := List.mem_map.mp hkl
      by_cases hc : kv.1 = f col
      · have hb : (kv.1 == f col) = true := beq_iff_eq.mpr hc
        simp only [hb, if_true]
        rw [List.filter_append, ← h1 kv hkv]
        have : (processed.filter (fun c => f c == kv.1)) = kv.2 :=
          (h1 kv hkv).symm
        simp [List.filter, hc]
      · have hb : (kv.1 == f col) = false := beq_eq_false_iff_ne.mpr hc
        simp only [hb, Bool.false_eq_true, if_false]
        rw [List.filter_append, ← h1 kv hkv]
        have hb2 : (f col == kv.1) = false :=
          beq_eq_false_iff_ne.mpr (fun e => hc e.symm)
        simp [List.filter, hb2]
    · rw [hgr, map_fst_update]
      exact h2
    · intro c hc
      rw [hgr, map_fst_update]
      rcases List.mem_append.mp hc with h | h
      · exact h3 c h
      · rw [List.mem_singleton.mp h]
        exact hgmem
    · rw [hgr]
      have hj := join_update r (f col) col h2
      rw [if_pos hgmem] at hj
      exact hj.trans (h4.append_right [col])
  · have hgr : groupInsert f r col = r ++ [(f col, [col])] := by
      unfold groupInsert
      rw [if_neg hex]
    have hgnot : f col ∉ r.map Prod.fst := by
      intro hmem
      obtain ⟨kv, hkv, he⟩ := List.mem_map.mp hmem
      exact hex (List.any_eq_true.mpr ⟨kv, hkv, beq_iff_eq.mpr he⟩)
    refine ⟨?_, ?_, ?_, ?_⟩
    · intro kl hkl
      rw [hgr] at hkl
      rcases List.mem_append.mp hkl with h | h
      · rw [List.filter_append, ← h1 kl h]
        have hb2 : (f col == kl.1) = false := by
          refine beq_eq_false_iff_ne.mpr (fun e => ?_)
          exact hgnot (e ▸ List.mem_map_of_mem Prod.fst h)
        simp [List.filter, hb2]
      · rw [List.mem_singleton.mp h]
        show [col] = (processed ++ [col]).filter (fun c => f c == f col)
        rw [List.filter_append]
        have hp : processed.filter (fun c => f c == f col) = [] := by
          rw [List.filter_eq_nil_iff]
          intro c hc hbc
          exact hgnot ((beq_iff_eq.mp hbc) ▸ h3 c hc)
        rw [hp]
        simp [List.filter]
    · rw [hgr]
      simp only [List.map_append, List.map_cons, List.map_nil]
      rw [List.nodup_append]
      exact ⟨h2, List.nodup_singleton _,
        by simp [List.disjoint_singleton, hgnot]⟩
    · intro c hc
      rw [hgr]
      simp only [List.map_append, List.map_cons, List.map_nil]
      rcases List.mem_append.mp hc with h | h
      · exact List.mem_append_left _ (h3 c h)
      · rw [List.mem_singleton.mp h]
        exact List.mem_append_right _ (by simp)
    · rw [hgr]
      simp only [List.map_append, List.map_cons, List.map_nil,
        List.flatten_append, List.flatten_cons, List.flatten_nil,
        List.append_nil]
      exact h4.append_right [col]

lemma groupFold_inv (f : String → String) :
    ∀ (rest : List String) (r : List (String × List String))
      (processed : List String),
      (∀ kl ∈ r, kl.2 = processed.filter (fun c => f c == kl.1)) →
      ((r.map Prod.fst).Nodup) →
      (∀ c ∈ processed, f c ∈ r.map Prod.fst) →
      (((r.map Prod.snd).flatten).Perm processed) →
      (∀ kl ∈ rest.foldl (groupInsert f) r,
        kl.2 = (processed ++ rest).filter (fun c => f c == kl.1)) ∧
      ((rest.foldl (groupInsert f) r).map Prod.fst).Nodup ∧
      (∀ c ∈ processed ++ rest,
        f c ∈ (rest.foldl (groupInsert f) r).map Prod.fst) ∧
      (((rest.foldl (groupInsert f) r).map Prod.snd).flatten).Perm
        (processed ++ rest) := by
  intro rest
  induction rest with
  | nil =>
      intro r processed h1 h2 h3 h4
      rw [List.foldl_nil, List.append_nil]
      exact ⟨h1, h2, h3, h4⟩
  | cons col rest' ih =>
      intro r processed h1 h2 h3 h4
      obtain ⟨g1, g2, g3, g4⟩ := groupInsert_inv f r processed col h1 h2 h3 h4
      have hres := ih (groupInsert f r col) (processed ++ [col]) g1 g2 g3 g4
      have heq : (processed ++ [col]) ++ rest' = processed ++ col :: rest' := by
        rw [List.append_assoc]
        rfl
      rw [heq] at hres
      rw [List.foldl_cons]
      exact hres

/-- C9: `group_similar_names` is a partition of the input: each group's
list is exactly the input names mapping (under `erase_in_name` with the
requested affixes and order) to that group's key, kept in input order; the
group keys are pairwise distinct; every input name's erased form is a key;
and the concatenation of all groups is a permutation of the input (each
input name lands in exactly one group, with multiplicity). -/
theorem C9_group_similar_names (colnames skipSuf skipPre skipWord :
    List String) (order : List EraseKey) :
    (∀ kl ∈ group_similar_names colnames skipSuf skipPre skipWord order,
      kl.2 = colnames.filter
        (fun c => erase_in_name c skipSuf skipPre skipWord order
          == kl.1)) ∧
    ((group_similar_names colnames skipSuf skipPre skipWord order).map
        Prod.fst).Nodup ∧
    (∀ c ∈ colnames, erase_in_name c skipSuf skipPre skipWord order
      ∈ (group_similar_names colnames skipSuf skipPre skipWord order).map
          Prod.fst) ∧
    (((group_similar_names colnames skipSuf skipPre skipWord order).map
        Prod.snd).flatten).Perm colnames := by
  have h := groupFold_inv
    (fun c => erase_in_name c skipSuf skipPre skipWord order) colnames [] []
    (fun kl hkl => absurd hkl (List.not_mem_nil _))
    (by simp)
    (fun c hc => absurd hc (List.not_mem_nil _))
    (by simp)
  simpa [group_similar_names] using h
